import Mathlib

/-!
Verification of the serial telemetry ingestion pipeline of
`serial_location_reader.py` (class `SerialLocationReader`).

The embedding is shallow and executable:
* text is `String` / `List Char`; Python's byte strings are `List Nat`;
* Python floats are modelled as exact rationals `ℚ` (the inputs the claims
  exercise are exactly representable, so IEEE rounding is immaterial);
* the three precompiled regular expressions of `__init__` are embedded as
  deterministic scanning functions implementing `re.search` semantics
  (leftmost position, greedy quantifiers with the backtracking that is
  actually reachable for these patterns) over ASCII text; Python's Unicode
  digit / whitespace classes are modelled by their ASCII restrictions;
* `json.loads` is embedded as a fuel-indexed recursive-descent parser of the
  RFC 8259 grammar in strict mode (trailing commas, unterminated strings and
  bare control characters are errors; CPython's nonstandard NaN/Infinity
  extension and lone-surrogate escapes are outside the model, and none of the
  claims touch them);
* the Qt signals `locationReceived`, `telemetryReceived`, `lineReceived`
  become an ordered list of emitted `Event`s;
* file sinks become pure accumulators (bytes written, hex-dump lines written);
  opening the sink files is assumed to succeed, and `os.path.abspath`,
  `bytes.decode` and the serial port are uninterpreted environment parameters.
-/

namespace SerialLoc

/-! ### Character classes (ASCII restrictions of Python's `\s`, `\d`, `str.strip`) -/

/-- ASCII whitespace as recognized by Python's `str.strip()` and the `\s`
regex class: space, tab, newline, carriage return, vertical tab, form feed. -/
def isPyWs (c : Char) : Bool :=
  c == ' ' || c == '\t' || c == '\n' || c == '\r' || c == Char.ofNat 11 || c == Char.ofNat 12

/-- The separator class `[,\s]` between the two captured numbers. -/
def isSep (c : Char) : Bool := c == ',' || isPyWs c

/-- JSON whitespace skipped by `json.loads` (space, tab, newline, CR). -/
def isJsonWs (c : Char) : Bool := c == ' ' || c == '\t' || c == '\n' || c == '\r'

/-- The opening brace character (ASCII 123). -/
def braceO : Char := Char.ofNat 123

/-- The closing brace character (ASCII 125). -/
def braceC : Char := Char.ofNat 125

/-- The double-quote character. -/
def quoteChar : Char := Char.ofNat 34

/-- The backslash character. -/
def bslash : Char := Char.ofNat 92

/-- Python `str.lstrip()` on a character list. -/
def pyLStrip (l : List Char) : List Char := l.dropWhile isPyWs

/-- Drop trailing characters satisfying `p`. -/
def rstripBy (p : Char → Bool) (l : List Char) : List Char :=
  (l.reverse.dropWhile p).reverse

/-- Python `str.rstrip()` on a character list. -/
def pyRStrip (l : List Char) : List Char := rstripBy isPyWs l

/-- Python `str.strip()` on a character list. -/
def pyStrip (l : List Char) : List Char := pyRStrip (pyLStrip l)

/-- Model of `line.rstrip("\r\n")` applied after decoding a raw line (run loop). -/
def rstripCRLF (s : String) : String :=
  String.mk (rstripBy (fun c => c == '\r' || c == '\n') s.data)

/-- Numeric value of a digit string (base 10). -/
def digitsToNat (ds : List Char) : Nat :=
  ds.foldl (fun a c => a * 10 + (c.toNat - 48)) 0

/-! ### The numeric capture group `[+-]?\d+(?:\.\d+)?`

`matchSign` and `matchNum` implement the greedy match of the capture group
shared by all three coordinate patterns, returning the captured characters
and the remaining input.  If the optional fractional part `(?:\.\d+)?` cannot
complete (no digit after the dot) the regex engine drops it, which is what
the first `some` branch does. -/

/-- Consume an optional `[+-]` sign, returning it and the rest. -/
def matchSign : List Char → List Char × List Char
  | c :: r => if c = '+' ∨ c = '-' then ([c], r) else ([], c :: r)
  | [] => ([], [])

/-- Greedy match of `[+-]?\d+(?:\.\d+)?` at the head of the input:
`some (captured, rest)` on success. -/
def matchNum (cs : List Char) : Option (List Char × List Char) :=
  let p := matchSign cs
  let ds := p.2.takeWhile Char.isDigit
  let rest := p.2.dropWhile Char.isDigit
  match ds with
  | [] => none
  | _ :: _ =>
    match rest with
    | '.' :: r2 =>
      match r2.takeWhile Char.isDigit with
      | [] => some (p.1 ++ ds, rest)
      | f :: fs => some (p.1 ++ ds ++ '.' :: f :: fs, r2.dropWhile Char.isDigit)
    | _ => some (p.1 ++ ds, rest)

/-! ### Python `float()` on strings

`pyFloatChars` models `float(s)` for finite decimal literals: optional
surrounding whitespace, optional sign, a mantissa that is `digits`,
`digits.digits`, `digits.` or `.digits`, and an optional exponent part.
(The `inf`/`nan` spellings and underscore digit separators accepted by
CPython are outside the model; no claim involves them.)  `none` models
`ValueError`. -/

/-- Ten to a natural power (denominator/scale factors of decimal literals). -/
def pow10 (n : Nat) : Nat := 10 ^ n

/-- Exact rational value of the decimal literal
`[-] ds . fs × 10^e`, built directly with `mkRat` (equal to
`±(ds + fs/10^|fs|)·10^e`; phrased without `Rat` field operations so that
concrete instances evaluate inside `decide`/`rfl`). -/
def decValue (neg : Bool) (ds fs : List Char) (e : ℤ) : ℚ :=
  let m : ℤ := Int.ofNat (digitsToNat (ds ++ fs))
  let m2 : ℤ := if neg then -m else m
  if 0 ≤ e then mkRat (m2 * Int.ofNat (pow10 e.toNat)) (pow10 fs.length)
  else mkRat m2 (pow10 fs.length * pow10 (-e).toNat)

/-- Parse an optional exponent part `[eE][+-]?\d+`.  If the exponent marker
is present but malformed, nothing is consumed (the caller then rejects the
string because of the leftover characters, matching `float("1e")` raising
`ValueError`). -/
def pyExpParse (cs : List Char) : ℤ × List Char :=
  match cs with
  | c :: r =>
    if c = 'e' ∨ c = 'E' then
      let p := matchSign r
      match p.2.takeWhile Char.isDigit with
      | [] => (0, cs)
      | _ :: _ =>
        ((if p.1 = ['-'] then -(digitsToNat (p.2.takeWhile Char.isDigit) : ℤ)
            else (digitsToNat (p.2.takeWhile Char.isDigit) : ℤ)),
          p.2.dropWhile Char.isDigit)
    else (0, cs)
  | [] => (0, [])

/-- Finish a `float()` parse: apply the optional exponent to the mantissa
digits and require only whitespace to remain. -/
def pyFinish (neg : Bool) (ds fs after : List Char) : Option ℚ :=
  if (pyExpParse after).2.dropWhile isPyWs = [] then
    some (decValue neg ds fs (pyExpParse after).1)
  else none

/-- The mantissa forms accepted by `float()` after sign removal:
`digits`, `digits.digits`, `digits.` or `.digits`. -/
def pyFloatTail (neg : Bool) (cs1 : List Char) : Option ℚ :=
  match cs1.takeWhile Char.isDigit, cs1.dropWhile Char.isDigit with
  | [], '.' :: r2 =>
    match r2.takeWhile Char.isDigit with
    | [] => none
    | f :: fs => pyFinish neg [] (f :: fs) (r2.dropWhile Char.isDigit)
  | [], _ => none
  | d :: ds, '.' :: r2 => pyFinish neg (d :: ds) (r2.takeWhile Char.isDigit) (r2.dropWhile Char.isDigit)
  | d :: ds, rest => pyFinish neg (d :: ds) [] rest

/-- Python `float()` on a character list (see the section comment). -/
def pyFloatChars (cs0 : List Char) : Option ℚ :=
  pyFloatTail ((matchSign (cs0.dropWhile isPyWs)).1 == ['-'])
    (matchSign (cs0.dropWhile isPyWs)).2

/-! ### The three coordinate patterns of `__init__`

`_re_loc`      : `Location:\s*(NUM)[,\s]+(NUM)`            (re.I)
`_re_emoji_loc`: `\N{ROUND PUSHPIN}\s*Location:\s*(NUM)[,\s]+(NUM)` (re.I)
`_re_latlon_pair`: `Lat(?:itude)?:\s*(NUM)\D+Lon(?:gitude)?:\s*(NUM)` (re.I)

Each `match*At` function decides a match anchored at the current position;
`searchWith` then implements `re.search`'s leftmost scan.  For these
patterns the only reachable backtracking is the shrinking of the greedy
`\D+` (implemented by `tryNonDigit`, longest split first) and the dropped
optional groups handled inside `matchNum` / `ciStarts` fallbacks; the
greedy `\s*`, `[,\s]+` and `\d+` runs can never be profitably shortened
because the characters that follow them in the pattern are disjoint from
their classes. -/

/-- Case-insensitive literal match: `pat` is given in lowercase; returns the
rest of the input on success. -/
def ciStarts : List Char → List Char → Option (List Char)
  | [], cs => some cs
  | _ :: _, [] => none
  | p :: ps, c :: cs => if c.toLower = p then ciStarts ps cs else none

/-- The literal `Location:` (compared case-insensitively). -/
def locKey : List Char := "location:".data

/-- Tail of the first two patterns after `Location:`: `\s*(NUM)[,\s]+(NUM)`. -/
def matchLocTail (cs : List Char) : Option (List Char × List Char) :=
  match matchNum (cs.dropWhile isPyWs) with
  | none => none
  | some (g1, cs2) =>
    match cs2.takeWhile isSep with
    | [] => none
    | _ :: _ =>
      match matchNum (cs2.dropWhile isSep) with
      | none => none
      | some (g2, _) => some (g1, g2)

/-- Pattern `_re_loc` anchored at the current position. -/
def matchLocAt (cs : List Char) : Option (List Char × List Char) :=
  match ciStarts locKey cs with
  | none => none
  | some r => matchLocTail r

/-- The ROUND PUSHPIN glyph (U+1F4CD) prefixing `_re_emoji_loc`. -/
def pushpin : Char := Char.ofNat 0x1F4CD

/-- Pattern `_re_emoji_loc` anchored at the current position. -/
def matchEmojiAt : List Char → Option (List Char × List Char)
  | c :: r =>
    if c = pushpin then
      match ciStarts locKey (r.dropWhile isPyWs) with
      | none => none
      | some r2 => matchLocTail r2
    else none
  | [] => none

/-- After the literal `lat`: the optional `itude` and the `:` (the regex
backtracks out of a matched `itude` only into a dead `:`-vs-`i` comparison,
so requiring `itude:` as a unit is faithful). -/
def matchAfterLat (cs : List Char) : Option (List Char) :=
  match ciStarts ("itude:".data) cs with
  | some r => some r
  | none =>
    match cs with
    | ':' :: r => some r
    | _ => none

/-- After the literal `lon`: the optional `gitude` and the `:`. -/
def matchAfterLon (cs : List Char) : Option (List Char) :=
  match ciStarts ("gitude:".data) cs with
  | some r => some r
  | none =>
    match cs with
    | ':' :: r => some r
    | _ => none

/-- The suffix `Lon(?:gitude)?:\s*(NUM)` of the pair pattern; returns the
second captured group. -/
def lonRest (cs : List Char) : Option (List Char) :=
  match ciStarts ("lon".data) cs with
  | none => none
  | some r1 =>
    match matchAfterLon r1 with
    | none => none
    | some r2 =>
      match matchNum (r2.dropWhile isPyWs) with
      | none => none
      | some (g2, _) => some g2

/-- Greedy `\D+` backtracking: try the split after `k` non-digit characters,
longest first, matching `lonRest` on the remainder. -/
def tryNonDigit : Nat → List Char → Option (List Char)
  | 0, _ => none
  | k + 1, cs =>
    match lonRest (cs.drop (k + 1)) with
    | some g2 => some g2
    | none => tryNonDigit k cs

/-- Pattern `_re_latlon_pair` anchored at the current position. -/
def matchPairAt (cs : List Char) : Option (List Char × List Char) :=
  match ciStarts ("lat".data) cs with
  | none => none
  | some r1 =>
    match matchAfterLat r1 with
    | none => none
    | some r2 =>
      match matchNum (r2.dropWhile isPyWs) with
      | none => none
      | some (g1, r3) =>
        match tryNonDigit (r3.takeWhile (fun c => !c.isDigit)).length r3 with
        | some g2 => some (g1, g2)
        | none => none

/-- Model of `re.search`: try the anchored matcher at every position, leftmost first. -/
def searchWith (m : List Char → Option (List Char × List Char)) :
    List Char → Option (List Char × List Char)
  | [] => m []
  | c :: t =>
    match m (c :: t) with
    | some r => some r
    | none => searchWith m t

/-- The scrutinee of the first branch of `_parse_line_for_location`:
`self._re_loc.search(line) or self._re_emoji_loc.search(line)`. -/
def locOrEmoji (cs : List Char) : Option (List Char × List Char) :=
  match searchWith matchLocAt cs with
  | some g => some g
  | none => searchWith matchEmojiAt cs

/-- The pattern/group selection performed by `_parse_line_for_location`:
`_re_loc`-or-`_re_emoji_loc` first, else `_re_latlon_pair`. -/
def searchGroups (cs : List Char) : Option (List Char × List Char) :=
  match locOrEmoji cs with
  | some g => some g
  | none => searchWith matchPairAt cs

/-! ### JSON values and `json.loads` -/

/-- A parsed JSON value.  Numbers are exact rationals (both JSON integers and
JSON floats; the int/float distinction of Python is immaterial to the
claims).  Objects keep dict insertion order. -/
inductive JVal where
  | null
  | bool (b : Bool)
  | num (q : ℚ)
  | str (s : String)
  | arr (elems : List JVal)
  | obj (fields : List (String × JVal))

/-- Python dict assignment `d[k] = v`: replace in place if the key exists
(keeping its original position, as CPython dicts do), else append. -/
def insertKV : List (String × JVal) → String → JVal → List (String × JVal)
  | [], key, v => [(key, v)]
  | (k, w) :: t, key, v =>
    if k = key then (k, v) :: t else (k, w) :: insertKV t key v

/-- Python dict lookup `d[k]` / `k in d` (first matching key). -/
def lookupKV : List (String × JVal) → String → Option JVal
  | [], _ => none
  | (k, v) :: t, key => if k = key then some v else lookupKV t key

/-- Value of one hex digit, or `none`. -/
def hexVal (c : Char) : Option Nat :=
  if '0' ≤ c ∧ c ≤ '9' then some (c.toNat - 48)
  else if 'a' ≤ c ∧ c ≤ 'f' then some (c.toNat - 87)
  else if 'A' ≤ c ∧ c ≤ 'F' then some (c.toNat - 55)
  else none

/-- Four hex digits of a `\uXXXX` escape. -/
def parseHex4 : List Char → Option (Nat × List Char)
  | a :: b :: c :: d :: r =>
    match hexVal a, hexVal b, hexVal c, hexVal d with
    | some x, some y, some z, some w => some (((x * 16 + y) * 16 + z) * 16 + w, r)
    | _, _, _, _ => none
  | _ => none

/-- String body parser (after the opening quote), strict mode: bare control
characters and unknown escapes are errors; surrogate pairs in `\u` escapes
are combined (a lone surrogate, which CPython would keep, is not
representable in `Char` and is rejected — unreachable in every claim). -/
def jstr : Nat → List Char → List Char → Option (List Char × List Char)
  | 0, _, _ => none
  | _ + 1, _, [] => none
  | n + 1, acc, c :: r =>
    if c = quoteChar then some (acc.reverse, r)
    else if c = bslash then
      match r with
      | [] => none
      | e :: r2 =>
        if e = quoteChar then jstr n (quoteChar :: acc) r2
        else if e = bslash then jstr n (bslash :: acc) r2
        else if e = '/' then jstr n ('/' :: acc) r2
        else if e = 'b' then jstr n (Char.ofNat 8 :: acc) r2
        else if e = 'f' then jstr n (Char.ofNat 12 :: acc) r2
        else if e = 'n' then jstr n ('\n' :: acc) r2
        else if e = 'r' then jstr n ('\r' :: acc) r2
        else if e = 't' then jstr n ('\t' :: acc) r2
        else if e = 'u' then
          match parseHex4 r2 with
          | none => none
          | some (v, r3) =>
            if 0xD800 ≤ v ∧ v < 0xDC00 then
              match r3 with
              | b1 :: u2 :: r4 =>
                if b1 = bslash ∧ u2 = 'u' then
                  match parseHex4 r4 with
                  | some (v2, r5) =>
                    if 0xDC00 ≤ v2 ∧ v2 < 0xE000 then
                      jstr n (Char.ofNat (0x10000 + (v - 0xD800) * 0x400 + (v2 - 0xDC00)) :: acc) r5
                    else none
                  | none => none
                else none
              | _ => none
            else if 0xDC00 ≤ v ∧ v < 0xE000 then none
            else jstr n (Char.ofNat v :: acc) r2
        else none
    else if c.toNat < 32 then none
    else jstr n (c :: acc) r

/-- JSON number at the head of the input, per the RFC 8259 grammar that
`json.loads` uses: `-?(0|[1-9]\d*)(\.\d+)?([eE][+-]?\d+)?`.  Characters not
belonging to the number (for example the bare `.` of `1.`) are left in the
remainder, where the surrounding context rejects them — operationally the
same errors as CPython's scanner. -/
def parseJNum (cs : List Char) : Option (JVal × List Char) :=
  let sp : Bool × List Char :=
    match cs with
    | c :: r => if c = '-' then (true, r) else (false, cs)
    | [] => (false, [])
  match sp.2 with
  | [] => none
  | c :: r =>
    if ¬ c.isDigit then none
    else
      let ip : List Char × List Char :=
        if c = '0' then ([c], r)
        else (c :: r.takeWhile Char.isDigit, r.dropWhile Char.isDigit)
      let fp : List Char × List Char :=
        match ip.2 with
        | '.' :: r2 =>
          match r2.takeWhile Char.isDigit with
          | [] => ([], ip.2)
          | f :: fs => (f :: fs, r2.dropWhile Char.isDigit)
        | _ => ([], ip.2)
      let ep : ℤ × List Char :=
        match fp.2 with
        | e :: r3 =>
          if e = 'e' ∨ e = 'E' then
            let sp2 : ℤ × List Char :=
              match r3 with
              | s :: r5 => if s = '+' then (1, r5) else if s = '-' then (-1, r5) else (1, r3)
              | [] => (1, r3)
            match sp2.2.takeWhile Char.isDigit with
            | [] => (0, fp.2)
            | _ :: _ => (sp2.1 * (digitsToNat (sp2.2.takeWhile Char.isDigit) : ℤ),
                sp2.2.dropWhile Char.isDigit)
          else (0, fp.2)
        | [] => (0, fp.2)
      some (.num (decValue sp.1 ip.1 fp.1 ep.1), ep.2)

/-- Parser mode: a value, or the remainder of an object / array after its
opening bracket (carrying the members accumulated so far). -/
inductive PMode where
  | val
  | objRest (first : Bool) (acc : List (String × JVal))
  | arrRest (first : Bool) (acc : List JVal)

/-- Fuel-indexed recursive-descent parser for the RFC 8259 grammar (strict
mode, faithful to `json.loads`).  Every recursive call consumes at least one
character first, so fuel `length + 1` never runs out. -/
def parseP : Nat → PMode → List Char → Option (JVal × List Char)
  | 0, _, _ => none
  | n + 1, .val, cs =>
    match cs with
    | [] => none
    | c :: r =>
      if c = braceO then parseP n (.objRest true []) (r.dropWhile isJsonWs)
      else if c = '[' then parseP n (.arrRest true []) (r.dropWhile isJsonWs)
      else if c = quoteChar then
        match jstr (r.length + 1) [] r with
        | some (s, rest) => some (.str (String.mk s), rest)
        | none => none
      else if c = 't' then
        (match r with | 'r' :: 'u' :: 'e' :: rr => some (.bool true, rr) | _ => none)
      else if c = 'f' then
        (match r with | 'a' :: 'l' :: 's' :: 'e' :: rr => some (.bool false, rr) | _ => none)
      else if c = 'n' then
        (match r with | 'u' :: 'l' :: 'l' :: rr => some (.null, rr) | _ => none)
      else parseJNum cs
  | n + 1, .objRest first acc, cs =>
    match cs with
    | [] => none
    | c :: r =>
      if first ∧ c = braceC then some (.obj acc, r)
      else if c = quoteChar then
        match jstr (r.length + 1) [] r with
        | none => none
        | some (k, rest1) =>
          match rest1.dropWhile isJsonWs with
          | ':' :: rest2 =>
            match parseP n .val (rest2.dropWhile isJsonWs) with
            | none => none
            | some (v, rest3) =>
              match rest3.dropWhile isJsonWs with
              | ',' :: rest4 =>
                parseP n (.objRest false (insertKV acc (String.mk k) v)) (rest4.dropWhile isJsonWs)
              | c2 :: rest5 =>
                if c2 = braceC then some (.obj (insertKV acc (String.mk k) v), rest5) else none
              | [] => none
          | _ => none
      else none
  | n + 1, .arrRest first acc, cs =>
    match cs with
    | [] => none
    | c :: _ =>
      if first ∧ c = ']' then some (.arr acc, cs.drop 1)
      else
        match parseP n .val cs with
        | none => none
        | some (v, rest1) =>
          match rest1.dropWhile isJsonWs with
          | ',' :: rest2 => parseP n (.arrRest false (acc ++ [v])) (rest2.dropWhile isJsonWs)
          | ']' :: rest3 => some (.arr (acc ++ [v]), rest3)
          | _ => none

/-- Model of `json.loads` on a character list: one top-level value, surrounding
whitespace allowed, nothing else; `none` models the raised decode error. -/
def jsonLoads (cs : List Char) : Option JVal :=
  match parseP (cs.length + 1) PMode.val (cs.dropWhile isJsonWs) with
  | none => none
  | some (v, rest) => if rest.dropWhile isJsonWs = [] then some v else none

/-! ### Events and the emitters -/

/-- One emission on the reader's Qt signals, in order:
`locationReceived`, `telemetryReceived`, `lineReceived`. -/
inductive Event where
  | location (lat lon : ℚ)
  | telemetry (pkt : List (String × JVal))
  | rawLine (text : String)

/-- True on `location` events. -/
def isLocation : Event → Bool
  | .location _ _ => true
  | _ => false

/-- True on `telemetry` events. -/
def isTelemetry : Event → Bool
  | .telemetry _ => true
  | _ => false

/-- True on `raw_line` events. -/
def isRawLine : Event → Bool
  | .rawLine _ => true
  | _ => false

/-- Model of `_emit_latlon`: one `location` event, then one two-field `telemetry`
packet holding exactly the same coordinates. -/
def emit_latlon (lat lon : ℚ) : List Event :=
  [.location lat lon, .telemetry [("latitude", .num lat), ("longitude", .num lon)]]

/-- The tuple of recognized field names iterated over by `_emit_json`,
in source order. -/
def recognizedKeys : List String :=
  ["latitude", "longitude", "altitude", "mode", "armed", "battery_voltage",
    "remaining_minutes", "gps_sats", "gps_fix", "pitch", "roll", "yaw",
    "vx", "vy", "vz", "city_country"]

/-- The packet built by `_emit_json`: copy the recognized fields present in
the object, then normalize the `lat` / `lon` spellings onto
`latitude` / `longitude` (overriding). -/
def emit_json_pkt (obj : List (String × JVal)) : List (String × JVal) :=
  let pkt0 := recognizedKeys.foldl
    (fun p k => match lookupKV obj k with
      | some v => insertKV p k v
      | none => p) []
  let pkt1 :=
    match lookupKV obj "lat" with
    | some v => insertKV pkt0 "latitude" v
    | none => pkt0
  match lookupKV obj "lon" with
  | some v => insertKV pkt1 "longitude" v
  | none => pkt1

/-- Model of `float()` applied to a JSON value, as `_emit_json` does to the
coordinate fields (`float(True)` is `1.0`; non-numeric non-string values
raise, modelled by `none`). -/
def pyFloatOfJVal : JVal → Option ℚ
  | .num q => some q
  | .bool b => some (if b then 1 else 0)
  | .str s => pyFloatChars s.data
  | _ => none

/-- Model of `_emit_json`: emit the packet if non-empty, and additionally a
`location` event when both coordinate fields are present and convert —
a conversion failure skips only the location emission. -/
def emit_json (obj : List (String × JVal)) : List Event :=
  match emit_json_pkt obj with
  | [] => []
  | pkt@(_ :: _) =>
    .telemetry pkt ::
      (match lookupKV pkt "latitude", lookupKV pkt "longitude" with
        | some lv, some gv =>
          match pyFloatOfJVal lv, pyFloatOfJVal gv with
          | some la, some lo => [.location la lo]
          | _, _ => []
        | _, _ => [])

/-- Wrapper: `_emit_json` is only ever reached with the result of parsing a
brace-delimited payload, which is an object; other values are dead. -/
def emit_json_val : JVal → List Event
  | .obj fs => emit_json fs
  | _ => []

/-! ### `_parse_line_for_location` -/

/-- Model of `_parse_line_for_location`: returns the bool the Python method returns
together with the events it emitted.  The exception branches (a captured
group `float()` raising) return `(false, [])`: no emission, fall through to
JSON feeding — and, faithfully to the code, a failed conversion after a
`_re_loc` / `_re_emoji_loc` match does not try `_re_latlon_pair`. -/
def parse_line_for_location (line : String) : Bool × List Event :=
  match locOrEmoji line.data with
  | some (g1, g2) =>
    (match pyFloatChars g1, pyFloatChars g2 with
      | some la, some lo => (true, emit_latlon la lo)
      | _, _ => (false, []))
  | none =>
    match searchWith matchPairAt line.data with
    | some (g1, g2) =>
      (match pyFloatChars g1, pyFloatChars g2 with
        | some la, some lo => (true, emit_latlon la lo)
        | _, _ => (false, []))
    | none => (false, [])

/-! ### JSON assembly state and `_feed_json_line` -/

/-- The JSON framing state of the reader: `_json_buf`, `_json_depth`,
`_json_in_string`, `_json_escape`. -/
structure JsonState where
  buf : List Char
  depth : ℤ
  inString : Bool
  escape : Bool

/-- The state set up by `__init__`. -/
def initState : JsonState := ⟨[], 0, false, false⟩

/-- One character of the streaming scan: update the string/escape flags and
the brace depth (braces inside strings are ignored). -/
def scanCore (st : JsonState) (c : Char) : JsonState :=
  if st.inString then
    if st.escape then { st with escape := false }
    else if c = bslash then { st with escape := true }
    else if c = quoteChar then { st with inString := false }
    else st
  else
    if c = quoteChar then { st with inString := true }
    else if c = braceO then { st with depth := st.depth + 1 }
    else if c = braceC then { st with depth := st.depth - 1 }
    else st

/-- One character of the streaming scan including the unconditional
`self._json_buf.append(ch)`. -/
def scanChar (st : JsonState) (c : Char) : JsonState :=
  { scanCore st c with buf := st.buf ++ [c] }

/-- The fast-path test of `_feed_json_line`:
`s = line.lstrip(); s.startswith(brace) and s.rstrip().endswith(brace)`. -/
def fastCond (cs : List Char) : Bool :=
  (pyLStrip cs).head? == some braceO && (pyRStrip (pyLStrip cs)).getLast? == some braceC

/-- Model of `_feed_json_line`: fast path for a whole object on one line, else the
character scan; when depth returns to zero with a non-empty buffer the
payload is taken, the buffer and string flags are reset, and the payload is
parsed if brace-delimited. -/
def feed_json_line (st : JsonState) (line : String) : JsonState × List Event :=
  if line.data = [] then (st, [])
  else if fastCond line.data then
    match jsonLoads line.data with
    | none => (st, [])
    | some v => (st, emit_json_val v)
  else
    let st1 := line.data.foldl scanChar st
    if st1.depth = 0 ∧ st1.buf ≠ [] then
      let payload := pyStrip st1.buf
      let st2 : JsonState := ⟨[], st1.depth, false, false⟩
      if payload.head? = some braceO ∧ payload.getLast? = some braceC then
        match jsonLoads payload with
        | none => (st2, [])
        | some v => (st2, emit_json_val v)
      else (st2, [])
    else (st1, [])

/-- The per-line handling of the run loop (lines 317–323, shared in spirit
with the chunk-mode inner loop): skip empty lines, republish the line, then
pattern extraction first and JSON feeding only if it returned `False`. -/
def process_line (st : JsonState) (line : String) : JsonState × List Event :=
  if line.data = [] then (st, [])
  else
    match parse_line_for_location line with
    | (true, evs) => (st, .rawLine line :: evs)
    | (false, _) =>
      let r := feed_json_line st line
      (r.1, .rawLine line :: r.2)

/-! ### Sink fan-out: `_log_bin_and_hex` and the hex dump -/

/-- One uppercase hex digit. -/
def hexDigitU (n : Nat) : Char :=
  if n < 10 then Char.ofNat (48 + n) else Char.ofNat (55 + n)

/-- Uppercase hex digits of `n`, most significant first (`[]` for zero);
fuel-indexed (`n` itself is always enough fuel). -/
def toHexAux : Nat → Nat → List Char
  | 0, _ => []
  | fuel + 1, n => if n = 0 then [] else toHexAux fuel (n / 16) ++ [hexDigitU (n % 16)]

/-- Python `f"{n:08X}"`: uppercase hex, zero-padded to a minimum width of 8. -/
def hex08 (n : Nat) : String :=
  let s := if n = 0 then ['0'] else toHexAux n n
  String.mk (List.replicate (8 - s.length) '0' ++ s)

/-- Table entry `_HEX[b]`, i.e. Python `f"{b:02X}"`. -/
def hexByte (b : Nat) : String :=
  let s := if b = 0 then ['0'] else toHexAux b b
  String.mk (List.replicate (2 - s.length) '0' ++ s)

/-- Model of `_ascii_gutter`: printable bytes as themselves, the rest as `.`. -/
def asciiGutter (chunk : List Nat) : String :=
  String.mk (chunk.map (fun b => if 32 ≤ b ∧ b < 127 then Char.ofNat b else '.'))

/-- The space-separated hex bytes of one dump line. -/
def hexBytesStr (chunk : List Nat) : String :=
  String.intercalate " " (chunk.map hexByte)

/-- Python `f"{hexs:<{w*3}}"`: left-justify to width `w*3` with spaces. -/
def padRightSpaces (w : Nat) (s : String) : String :=
  String.mk (s.data ++ List.replicate (w - s.data.length) ' ')

/-- One hex-dump line:
`f"{addr:08X}: {hexs:<{w*3}} |{asc}|"`. -/
def hexLine (addr w : Nat) (chunk : List Nat) : String :=
  hex08 addr ++ ": " ++ padRightSpaces (w * 3) (hexBytesStr chunk) ++ " |" ++ asciiGutter chunk ++ "|"

/-- The `while i < n` loop of `_log_bin_and_hex`: split the data into
chunks of `w` bytes, emit one line per chunk, and advance the running
address by each chunk's length.  Fuel-indexed; the reader's width is
clamped to at least 8 in `__init__`, so each step consumes at least one
byte and fuel `data.length` suffices. -/
def hexLoop : Nat → Nat → Nat → List Nat → List String × Nat
  | 0, _, addr, _ => ([], addr)
  | fuel + 1, w, addr, data =>
    if data = [] then ([], addr)
    else
      let chunk := data.take w
      let r := hexLoop fuel w (addr + chunk.length) (data.drop w)
      (hexLine addr w chunk :: r.1, r.2)

/-- Model of `_log_bin_and_hex`: returns (bytes appended to the binary capture,
hex-dump lines appended, new running address).  Empty data is a no-op. -/
def log_bin_and_hex (binOn hexOn : Bool) (w addr : Nat) (data : List Nat) :
    List Nat × List String × Nat :=
  if data = [] then ([], [], addr)
  else
    let bin := if binOn then data else []
    if hexOn then
      let r := hexLoop data.length w addr data
      (bin, r.1, r.2)
    else (bin, [], addr)

/-! ### The run loop (line mode)

The environment-dependent collaborators of `run` are uninterpreted
parameters: `os.path.abspath`, `bytes.decode("utf-8", errors="replace")`,
the port / baud display strings and the text of the open exception.  File
opens are assumed to succeed (`_safe_open` failure diagnostics are outside
the model); the text-log sink's contents are not modelled (no claim reads
them).  A run processes a finite list of read results; each element is the
byte string returned by one `readline()` call, `[]` modelling a timeout. -/

/-- Uninterpreted environment of a run. -/
structure Env where
  abspath : String → String
  decodeReplace : List Nat → String
  port : String
  baudStr : String
  errMsg : String

/-- The sink configuration of the reader (paths and hex width as passed to
`__init__`). -/
structure Cfg where
  logPath : Option String
  binPath : Option String
  hexPath : Option String
  hexwidth : Nat

/-- Clamp `self.hexwidth = max(8, int(hexwidth))`. -/
def effWidth (cfg : Cfg) : Nat := max 8 cfg.hexwidth

/-- The `[info]` lines emitted by `_open_files` (one per configured sink,
in source order: log, binary, hex dump). -/
def openFilesEvents (env : Env) (cfg : Cfg) : List Event :=
  (match cfg.logPath with
    | some p => [Event.rawLine ("[info] Logging to " ++ env.abspath p)]
    | none => []) ++
  (match cfg.binPath with
    | some p => [Event.rawLine ("[info] Binary capture -> " ++ env.abspath p)]
    | none => []) ++
  (match cfg.hexPath with
    | some p => [Event.rawLine ("[info] Hex dump -> " ++ env.abspath p)]
    | none => [])

/-- The diagnostic emitted when `_open_serial` (or `_open_files`) raises. -/
def serialErrorOpenLine (env : Env) : String :=
  "[Serial error] open failed: " ++ env.errMsg

/-- The startup line emitted after a successful open. -/
def serialStartedLine (env : Env) : String :=
  "[info] Serial started on " ++ env.port ++ " @ " ++ env.baudStr

/-- The mutable state threaded through the read loop. -/
structure LoopState where
  json : JsonState
  hexAddr : Nat
  binOut : List Nat
  hexLines : List String
  events : List Event

/-- Loop state at the top of `run` (in particular `_hex_addr = 0`). -/
def initLoop : LoopState := ⟨initState, 0, [], [], []⟩

/-- One iteration of the line-mode read loop: skip on timeout, else fan out
to the byte sinks, decode, strip the line terminator, and process the
line. -/
def stepLine (env : Env) (cfg : Cfg) (s : LoopState) (raw : List Nat) : LoopState :=
  if raw = [] then s
  else
    let r := log_bin_and_hex cfg.binPath.isSome cfg.hexPath.isSome (effWidth cfg) s.hexAddr raw
    let line := rstripCRLF (env.decodeReplace raw)
    let pr := process_line s.json line
    ⟨pr.1, r.2.2, s.binOut ++ r.1, s.hexLines ++ r.2.1, s.events ++ pr.2⟩

/-- The observable outcome of one `run()`. -/
structure RunOut where
  events : List Event
  binOut : List Nat
  hexLines : List String
  hexAddr : Nat
  readsDone : Nat
  sinksClosed : Bool

/-- Model of `run()` in line mode: open the sinks and the device; on open failure
emit one fatal diagnostic, close the sinks and return without reading;
otherwise announce the port and process every read, closing the sinks in
the `finally` block. -/
def runLines (env : Env) (cfg : Cfg) (openOk : Bool) (reads : List (List Nat)) : RunOut :=
  if openOk then
    let s := reads.foldl (stepLine env cfg) initLoop
    ⟨openFilesEvents env cfg ++ [Event.rawLine (serialStartedLine env)] ++ s.events,
      s.binOut, s.hexLines, s.hexAddr, reads.length, true⟩
  else
    ⟨openFilesEvents env cfg ++ [Event.rawLine (serialErrorOpenLine env)], [], [], 0, 0, true⟩

/-- Boolean prefix test on character lists (for classifying event text). -/
def listStartsWith : List Char → List Char → Bool
  | [], _ => true
  | _ :: _, [] => false
  | p :: ps, c :: cs => p == c && listStartsWith ps cs

/-- The `[Serial error]` diagnostic marker. -/
def serialErrMark : List Char := "[Serial error]".data

/-- An event carrying a `[Serial error]`-prefixed line. -/
def isSerialErrorEvent : Event → Bool
  | .rawLine t => listStartsWith serialErrMark t.data
  | _ => false

/-! ### Specification-side recomputation of the hex dump layout (for C7) -/

/-- Specification-side chunking of one read: the (offset, chunk) pairs the
dump loop should produce, offsets accumulating from `addr`. -/
def chunkPlan : Nat → Nat → Nat → List Nat → List (Nat × List Nat)
  | 0, _, _, _ => []
  | fuel + 1, w, addr, data =>
    if data = [] then []
    else (addr, data.take w) :: chunkPlan fuel w (addr + (data.take w).length) (data.drop w)

/-- Specification-side dump plan of a whole run: per-read chunking with the
running address carried across reads. -/
def hexPlanAll (w : Nat) : Nat → List (List Nat) → List (Nat × List Nat)
  | _, [] => []
  | addr, d :: t => chunkPlan d.length w addr d ++ hexPlanAll w (addr + d.length) t

/-- Address continuity of a dump plan starting at `a`: every line's offset
equals the cumulative byte count before it — no gaps, no overlap — and no
line is empty. -/
def planOk : Nat → List (Nat × List Nat) → Bool
  | _, [] => true
  | a, (o, c) :: t => o == a && !c.isEmpty && planOk (a + c.length) t

/-- A concrete stand-in for `bytes.decode("utf-8", errors="replace")`,
agreeing with it on ASCII byte strings (all inputs the claims exercise);
used only to instantiate the uninterpreted `Env.decodeReplace` in witness
and counterexample statements. -/
def asciiDecode (bs : List Nat) : String := String.mk (bs.map Char.ofNat)

/-- A concrete environment for witness statements. -/
def env0 : Env := ⟨id, asciiDecode, "COM3", "115200", "boom"⟩

/-! ### List helper lemmas -/

theorem mem_takeWhile_sat {p : Char → Bool} :
    ∀ {l : List Char} {c : Char}, c ∈ l.takeWhile p → p c = true := by
  intro l
  induction l with
  | nil => intro c h; simp [List.takeWhile] at h
  | cons a t ih =>
    intro c h
    by_cases hpa : p a
    · rw [List.takeWhile_cons_of_pos hpa] at h
      rcases List.mem_cons.mp h with h | h
      · exact h ▸ hpa
      · exact ih h
    · rw [List.takeWhile_cons_of_neg hpa] at h
      simp at h

theorem takeWhile_eq_self_of_all {p : Char → Bool} {l : List Char}
    (h : ∀ c ∈ l, p c = true) : l.takeWhile p = l := by
  have := @List.takeWhile_append_of_pos _ p l [] h
  simpa using this

theorem dropWhile_eq_nil_of_all {p : Char → Bool} {l : List Char}
    (h : ∀ c ∈ l, p c = true) : l.dropWhile p = [] := by
  have := @List.dropWhile_append_of_pos _ p l [] h
  simpa using this

/-! ### Packet construction lemmas -/

theorem lookup_insertKV (l : List (String × JVal)) (k k2 : String) (v : JVal) :
    lookupKV (insertKV l k v) k2 = if k2 = k then some v else lookupKV l k2 := by
  induction l with
  | nil =>
    by_cases h : k = k2
    · subst h; simp [insertKV, lookupKV]
    · simp [insertKV, lookupKV, h, Ne.symm h]
  | cons a t ih =>
    obtain ⟨ak, av⟩ := a
    by_cases hak : ak = k
    · subst hak
      simp only [insertKV, if_pos rfl, lookupKV]
      by_cases h2 : ak = k2
      · subst h2; simp
      · simp [h2, Ne.symm h2]
    · simp only [insertKV, if_neg hak, lookupKV, ih]
      by_cases h2 : ak = k2
      · have hne : ¬ k2 = k := fun hh => hak (h2.trans hh)
        simp [h2, hne]
      · simp [h2]

theorem lookup_foldStep_mem (obj : List (String × JVal)) :
    ∀ (keys : List String) (acc : List (String × JVal)) (k : String) (v : JVal),
      lookupKV
        (keys.foldl
          (fun p key => match lookupKV obj key with
            | some w => insertKV p key w
            | none => p) acc) k = some v →
      k ∈ keys ∨ lookupKV acc k = some v := by
  intro keys
  induction keys with
  | nil => intro acc k v h; exact Or.inr h
  | cons key rest ih =>
    intro acc k v h
    simp only [List.foldl_cons] at h
    rcases ih _ k v h with hmem | hacc
    · exact Or.inl (List.mem_cons_of_mem _ hmem)
    · rcases hlk : lookupKV obj key with _ | w
      · rw [hlk] at hacc
        exact Or.inr hacc
      · rw [hlk] at hacc
        rw [lookup_insertKV] at hacc
        by_cases hk : k = key
        · exact Or.inl (hk ▸ List.mem_cons_self _ _)
        · rw [if_neg hk] at hacc
          exact Or.inr hacc

theorem emit_json_pkt_keys (obj : List (String × JVal)) (k : String) (v : JVal)
    (h : lookupKV (emit_json_pkt obj) k = some v) : k ∈ recognizedKeys := by
  unfold emit_json_pkt at h
  have step2 :
      ∀ (p : List (String × JVal)),
        lookupKV
          (match lookupKV obj "lon" with
            | some w => insertKV p "longitude" w
            | none => p) k = some v →
        k = "longitude" ∨ lookupKV p k = some v := by
    intro p hp
    rcases hlon : lookupKV obj "lon" with _ | w
    · rw [hlon] at hp; exact Or.inr hp
    · rw [hlon, lookup_insertKV] at hp
      by_cases hk : k = "longitude"
      · exact Or.inl hk
      · rw [if_neg hk] at hp; exact Or.inr hp
  rcases step2 _ h with hk | h1
  · subst hk; decide
  have step1 :
      ∀ (p : List (String × JVal)),
        lookupKV
          (match lookupKV obj "lat" with
            | some w => insertKV p "latitude" w
            | none => p) k = some v →
        k = "latitude" ∨ lookupKV p k = some v := by
    intro p hp
    rcases hlat : lookupKV obj "lat" with _ | w
    · rw [hlat] at hp; exact Or.inr hp
    · rw [hlat, lookup_insertKV] at hp
      by_cases hk : k = "latitude"
      · exact Or.inl hk
      · rw [if_neg hk] at hp; exact Or.inr hp
  rcases step1 _ h1 with hk | h0
  · subst hk; decide
  rcases lookup_foldStep_mem obj recognizedKeys [] k v h0 with hmem | hnil
  · exact hmem
  · simp [lookupKV] at hnil

theorem emit_json_pkt_lat (obj : List (String × JVal)) (v : JVal)
    (h : lookupKV obj "lat" = some v) :
    lookupKV (emit_json_pkt obj) "latitude" = some v := by
  unfold emit_json_pkt
  rcases hlon : lookupKV obj "lon" with _ | w
  · rw [h, lookup_insertKV, if_pos rfl]
  · rw [h, lookup_insertKV, lookup_insertKV]
    have : ¬ ("latitude" : String) = "longitude" := by decide
    rw [if_neg this, if_pos rfl]

theorem emit_json_pkt_lon (obj : List (String × JVal)) (v : JVal)
    (h : lookupKV obj "lon" = some v) :
    lookupKV (emit_json_pkt obj) "longitude" = some v := by
  unfold emit_json_pkt
  rw [h, lookup_insertKV, if_pos rfl]

/-! ### Events emitted by the extractors carry no raw lines -/

theorem emit_json_filter_raw (obj : List (String × JVal)) :
    (emit_json obj).filter isRawLine = [] := by
  unfold emit_json
  split
  · rfl
  · rw [List.filter_cons_of_neg (by simp [isRawLine])]
    split
    · split <;> simp [isRawLine]
    · rfl

theorem emit_json_val_filter_raw (v : JVal) :
    (emit_json_val v).filter isRawLine = [] := by
  cases v
  case obj fs => exact emit_json_filter_raw fs
  all_goals rfl

theorem parse_filter_raw (line : String) :
    (parse_line_for_location line).2.filter isRawLine = [] := by
  unfold parse_line_for_location
  split
  · split <;> simp [emit_latlon, isRawLine]
  · split
    · split <;> simp [emit_latlon, isRawLine]
    · rfl

theorem feed_filter_raw (st : JsonState) (line : String) :
    (feed_json_line st line).2.filter isRawLine = [] := by
  unfold feed_json_line
  split
  · rfl
  split
  · split
    · rfl
    · exact emit_json_val_filter_raw _
  · dsimp only
    split
    · split
      · split
        · rfl
        · exact emit_json_val_filter_raw _
      · rfl
    · rfl

/-! ### Captured groups always convert with `float()` (support for C1/C10) -/

theorem not_ws_of_digit {c : Char} (h : c.isDigit = true) : isPyWs c = false := by
  cases hw : isPyWs c
  · rfl
  · exfalso
    simp only [isPyWs, Bool.or_eq_true, beq_iff_eq] at hw
    rcases hw with ((((rfl | rfl) | rfl) | rfl) | rfl) | rfl <;> exact absurd h (by decide)

theorem not_sign_of_digit {c : Char} (h : c.isDigit = true) : ¬(c = '+' ∨ c = '-') := by
  rintro (rfl | rfl) <;> exact absurd h (by decide)

/-- Any string of the shape produced by the numeric capture group —
optional sign, non-empty digits, optional dot plus non-empty digits —
is accepted by `float()`. -/
theorem pyFloatChars_shape (sg ds tl : List Char)
    (hsg : sg = [] ∨ sg = ['+'] ∨ sg = ['-'])
    (hds : ds ≠ []) (hdig : ∀ c ∈ ds, c.isDigit = true)
    (htl : tl = [] ∨ ∃ fs, tl = '.' :: fs ∧ fs ≠ [] ∧ ∀ c ∈ fs, c.isDigit = true) :
    (pyFloatChars (sg ++ ds ++ tl)).isSome = true := by
  obtain ⟨d, ds', rfl⟩ := List.exists_cons_of_ne_nil hds
  have hdigd : d.isDigit = true := hdig d (by simp)
  have hdnsign : ¬(d = '+' ∨ d = '-') := not_sign_of_digit hdigd
  have h1 : (sg ++ (d :: ds') ++ tl).dropWhile isPyWs = sg ++ (d :: ds') ++ tl := by
    rcases hsg with rfl | rfl | rfl
    · simp only [List.nil_append, List.cons_append]
      exact List.dropWhile_cons_of_neg (by simp [not_ws_of_digit hdigd])
    · simp only [List.cons_append, List.nil_append]
      exact List.dropWhile_cons_of_neg (by decide)
    · simp only [List.cons_append, List.nil_append]
      exact List.dropWhile_cons_of_neg (by decide)
  have h2 : matchSign (sg ++ (d :: ds') ++ tl) = (sg, (d :: ds') ++ tl) := by
    rcases hsg with rfl | rfl | rfl
    · simp [matchSign, hdnsign]
    · simp [matchSign]
    · simp [matchSign]
  have h3 : ((d :: ds') ++ tl).takeWhile Char.isDigit = d :: ds' := by
    rw [List.takeWhile_append_of_pos hdig]
    rcases htl with rfl | ⟨fs, rfl, hfs, hfsdig⟩
    · simp
    · rw [List.takeWhile_cons_of_neg (by decide)]
      simp
  have h4 : ((d :: ds') ++ tl).dropWhile Char.isDigit = tl := by
    rw [List.dropWhile_append_of_pos hdig]
    rcases htl with rfl | ⟨fs, rfl, hfs, hfsdig⟩
    · simp
    · exact List.dropWhile_cons_of_neg (by decide)
  unfold pyFloatChars
  rw [h1, h2]
  unfold pyFloatTail
  rw [h3, h4]
  rcases htl with rfl | ⟨fs, rfl, hfs, hfsdig⟩
  · show (pyFinish (sg == ['-']) (d :: ds') [] []).isSome = true
    simp [pyFinish, pyExpParse]
  · show (pyFinish (sg == ['-']) (d :: ds')
        (fs.takeWhile Char.isDigit) (fs.dropWhile Char.isDigit)).isSome = true
    rw [takeWhile_eq_self_of_all hfsdig, dropWhile_eq_nil_of_all hfsdig]
    simp [pyFinish, pyExpParse]

/-- The sign token returned by `matchSign` is empty or a single sign. -/
theorem matchSign_fst (cs : List Char) :
    (matchSign cs).1 = [] ∨ (matchSign cs).1 = ['+'] ∨ (matchSign cs).1 = ['-'] := by
  cases cs with
  | nil => simp [matchSign]
  | cons a t =>
    by_cases ha : a = '+' ∨ a = '-'
    · rcases ha with rfl | rfl <;> simp [matchSign]
    · simp [matchSign, ha]

/-- Whatever `matchNum` captures, `float()` accepts. -/
theorem matchNum_pyFloat {cs g r : List Char} (h : matchNum cs = some (g, r)) :
    (pyFloatChars g).isSome = true := by
  unfold matchNum at h
  dsimp only at h
  split at h
  · exact absurd h (by simp)
  · rename_i d ds' heq
    have hdig : ∀ c ∈ d :: ds', c.isDigit = true := by
      intro c hc
      exact mem_takeWhile_sat (heq ▸ hc)
    rw [heq] at h
    split at h
    · rename_i r2 heq2
      split at h
      · rename_i heq3
        have hg : (matchSign cs).1 ++ (d :: ds') = g := by
          simp only [Option.some_inj, Prod.mk.injEq] at h
          exact h.1
        have := pyFloatChars_shape (matchSign cs).1 (d :: ds') []
          (matchSign_fst cs) (by simp) hdig (Or.inl rfl)
        rw [List.append_nil] at this
        exact hg ▸ this
      · rename_i f fs' heq3
        have hfdig : ∀ c ∈ f :: fs', c.isDigit = true := by
          intro c hc
          exact mem_takeWhile_sat (heq3 ▸ hc)
        have hg : (matchSign cs).1 ++ (d :: ds') ++ '.' :: f :: fs' = g := by
          simp only [Option.some_inj, Prod.mk.injEq] at h
          exact h.1
        have := pyFloatChars_shape (matchSign cs).1 (d :: ds') ('.' :: f :: fs')
          (matchSign_fst cs) (by simp) hdig (Or.inr ⟨f :: fs', rfl, by simp, hfdig⟩)
        exact hg ▸ this
    · have hg : (matchSign cs).1 ++ (d :: ds') = g := by
        simp only [Option.some_inj, Prod.mk.injEq] at h
        exact h.1
      have := pyFloatChars_shape (matchSign cs).1 (d :: ds') []
        (matchSign_fst cs) (by simp) hdig (Or.inl rfl)
      rw [List.append_nil] at this
      exact hg ▸ this

/-! ### Group provenance through the matchers -/

theorem matchLocTail_groups {cs g1 g2 : List Char}
    (h : matchLocTail cs = some (g1, g2)) :
    (∃ a r, matchNum a = some (g1, r)) ∧ (∃ a r, matchNum a = some (g2, r)) := by
  unfold matchLocTail at h
  split at h
  · exact absurd h (by simp)
  · rename_i g1x cs2 heq
    split at h
    · exact absurd h (by simp)
    · split at h
      · exact absurd h (by simp)
      · rename_i g2x rx heq2
        simp only [Option.some_inj, Prod.mk.injEq] at h
        exact ⟨⟨_, _, h.1 ▸ heq⟩, ⟨_, _, h.2 ▸ heq2⟩⟩

theorem matchLocAt_groups {cs g1 g2 : List Char}
    (h : matchLocAt cs = some (g1, g2)) :
    (∃ a r, matchNum a = some (g1, r)) ∧ (∃ a r, matchNum a = some (g2, r)) := by
  unfold matchLocAt at h
  split at h
  · exact absurd h (by simp)
  · exact matchLocTail_groups h

theorem matchEmojiAt_groups {cs g1 g2 : List Char}
    (h : matchEmojiAt cs = some (g1, g2)) :
    (∃ a r, matchNum a = some (g1, r)) ∧ (∃ a r, matchNum a = some (g2, r)) := by
  unfold matchEmojiAt at h
  split at h
  · rename_i c rest
    split at h
    · split at h
      · exact absurd h (by simp)
      · exact matchLocTail_groups h
    · exact absurd h (by simp)
  · exact absurd h (by simp)

theorem lonRest_group {cs g2 : List Char} (h : lonRest cs = some g2) :
    ∃ a r, matchNum a = some (g2, r) := by
  unfold lonRest at h
  split at h
  · exact absurd h (by simp)
  · split at h
    · exact absurd h (by simp)
    · split at h
      · exact absurd h (by simp)
      · rename_i g2x rx heq
        simp only [Option.some_inj] at h
        exact ⟨_, _, h ▸ heq⟩

theorem tryNonDigit_group :
    ∀ {k : Nat} {cs g2 : List Char}, tryNonDigit k cs = some g2 →
      ∃ a r, matchNum a = some (g2, r) := by
  intro k
  induction k with
  | zero => intro cs g2 h; exact absurd h (by simp [tryNonDigit])
  | succ k ih =>
    intro cs g2 h
    unfold tryNonDigit at h
    split at h
    · rename_i heq
      simp only [Option.some_inj] at h
      exact lonRest_group (h ▸ heq)
    · exact ih h

theorem matchPairAt_groups {cs g1 g2 : List Char}
    (h : matchPairAt cs = some (g1, g2)) :
    (∃ a r, matchNum a = some (g1, r)) ∧ (∃ a r, matchNum a = some (g2, r)) := by
  unfold matchPairAt at h
  split at h
  · exact absurd h (by simp)
  · split at h
    · exact absurd h (by simp)
    · split at h
      · exact absurd h (by simp)
      · rename_i g1x r3 heq
        split at h
        · rename_i g2x heq2
          simp only [Option.some_inj, Prod.mk.injEq] at h
          exact ⟨⟨_, _, h.1 ▸ heq⟩, h.2 ▸ tryNonDigit_group heq2⟩
        · exact absurd h (by simp)

theorem searchWith_some {m : List Char → Option (List Char × List Char)} :
    ∀ {cs : List Char} {r}, searchWith m cs = some r → ∃ t, m t = some r := by
  intro cs
  induction cs with
  | nil => intro r h; exact ⟨[], h⟩
  | cons a t ih =>
    intro r h
    unfold searchWith at h
    split at h
    · rename_i heq
      simp only [Option.some_inj] at h
      exact ⟨a :: t, h ▸ heq⟩
    · exact ih h

theorem searchGroups_provenance {cs g1 g2 : List Char}
    (h : searchGroups cs = some (g1, g2)) :
    (∃ a r, matchNum a = some (g1, r)) ∧ (∃ a r, matchNum a = some (g2, r)) := by
  unfold searchGroups at h
  split at h
  · rename_i g heq
    simp only [Option.some_inj] at h
    subst h
    unfold locOrEmoji at heq
    split at heq
    · rename_i heq2
      simp only [Option.some_inj] at heq
      obtain ⟨t, ht⟩ := searchWith_some (heq ▸ heq2)
      exact matchLocAt_groups ht
    · obtain ⟨t, ht⟩ := searchWith_some heq
      exact matchEmojiAt_groups ht
  · obtain ⟨t, ht⟩ := searchWith_some h
    exact matchPairAt_groups ht

/-- When the code's pattern/group selection succeeds and both groups
convert, `_parse_line_for_location` returns `True` having emitted exactly
the location event and the two-field telemetry packet. -/
theorem parse_of_search (line : String) (g1 g2 : List Char) (la lo : ℚ)
    (h : searchGroups line.data = some (g1, g2))
    (h1 : pyFloatChars g1 = some la) (h2 : pyFloatChars g2 = some lo) :
    parse_line_for_location line = (true, emit_latlon la lo) := by
  unfold parse_line_for_location
  unfold searchGroups at h
  split at h
  · rename_i g heq
    simp only [Option.some_inj] at h
    subst h
    rw [heq]
    dsimp only
    rw [h1, h2]
  · rename_i heq
    rw [heq, h]
    dsimp only
    rw [h1, h2]

/-! ### The streaming scan appends every character to the buffer -/

theorem scanChar_buf (st : JsonState) (c : Char) :
    (scanChar st c).buf = st.buf ++ [c] := rfl

theorem foldl_scanChar_buf :
    ∀ (cs : List Char) (st : JsonState), (cs.foldl scanChar st).buf = st.buf ++ cs := by
  intro cs
  induction cs with
  | nil => intro st; simp
  | cons a t ih =>
    intro st
    simp only [List.foldl_cons]
    rw [ih, scanChar_buf, List.append_assoc]
    rfl

/-! ### Hex-dump loop lemmas (support for C7) -/

theorem chunkPlan_fuel :
    ∀ (fuel fuel2 w addr : Nat) (data : List Nat), data.length ≤ fuel →
      data.length ≤ fuel2 → 1 ≤ w →
      chunkPlan fuel w addr data = chunkPlan fuel2 w addr data := by
  intro fuel
  induction fuel with
  | zero =>
    intro fuel2 w addr data h1 h2 hw
    have : data = [] := List.length_eq_zero.mp (Nat.le_zero.mp h1)
    subst this
    cases fuel2 <;> simp [chunkPlan]
  | succ f ih =>
    intro fuel2 w addr data h1 h2 hw
    cases data with
    | nil => cases fuel2 <;> simp [chunkPlan]
    | cons b bs =>
      cases fuel2 with
      | zero => exact absurd h2 (by simp)
      | succ f2 =>
        simp only [chunkPlan, if_neg (by simp : ¬(b :: bs = []))]
        have hlen : (List.drop w (b :: bs)).length ≤ f := by
          rw [List.length_drop]
          omega
        have hlen2 : (List.drop w (b :: bs)).length ≤ f2 := by
          rw [List.length_drop]
          omega
        rw [ih f2 w _ _ hlen hlen2 hw]

theorem hexLoop_spec :
    ∀ (fuel w addr : Nat) (data : List Nat), data.length ≤ fuel → 1 ≤ w →
      hexLoop fuel w addr data
        = ((chunkPlan fuel w addr data).map (fun p => hexLine p.1 w p.2),
            addr + data.length) := by
  intro fuel
  induction fuel with
  | zero =>
    intro w addr data h1 hw
    have : data = [] := List.length_eq_zero.mp (Nat.le_zero.mp h1)
    subst this
    simp [hexLoop, chunkPlan]
  | succ f ih =>
    intro w addr data h1 hw
    cases data with
    | nil => simp [hexLoop, chunkPlan]
    | cons b bs =>
      have hne : ¬(b :: bs = []) := by simp
      simp only [hexLoop, chunkPlan, if_neg hne]
      have hlen : (List.drop w (b :: bs)).length ≤ f := by
        rw [List.length_drop]
        omega
      rw [ih w _ _ hlen hw]
      simp only [List.map_cons, Prod.mk.injEq]
      refine ⟨trivial, ?_⟩
      rw [List.length_drop, List.length_take]
      omega

theorem planOk_chunkPlan :
    ∀ (fuel w addr : Nat) (data : List Nat), data.length ≤ fuel → 1 ≤ w →
      planOk addr (chunkPlan fuel w addr data) = true := by
  intro fuel
  induction fuel with
  | zero =>
    intro w addr data h1 hw
    have : data = [] := List.length_eq_zero.mp (Nat.le_zero.mp h1)
    subst this
    simp [chunkPlan, planOk]
  | succ f ih =>
    intro w addr data h1 hw
    cases data with
    | nil => simp [chunkPlan, planOk]
    | cons b bs =>
      simp only [chunkPlan, if_neg (by simp : ¬(b :: bs = []))]
      simp only [planOk, Bool.and_eq_true, beq_self_eq_true, true_and]
      constructor
      · simp [List.take]
        omega
      · have hlen : (List.drop w (b :: bs)).length ≤ f := by
          rw [List.length_drop]
          omega
        exact ih w _ _ hlen hw

theorem chunkPlan_flatten :
    ∀ (fuel w addr : Nat) (data : List Nat), data.length ≤ fuel → 1 ≤ w →
      ((chunkPlan fuel w addr data).map Prod.snd).flatten = data := by
  intro fuel
  induction fuel with
  | zero =>
    intro w addr data h1 hw
    have : data = [] := List.length_eq_zero.mp (Nat.le_zero.mp h1)
    subst this
    simp [chunkPlan]
  | succ f ih =>
    intro w addr data h1 hw
    cases data with
    | nil => simp [chunkPlan]
    | cons b bs =>
      simp only [chunkPlan, if_neg (by simp : ¬(b :: bs = []))]
      simp only [List.map_cons, List.flatten_cons]
      have hlen : (List.drop w (b :: bs)).length ≤ f := by
        rw [List.length_drop]
        omega
      rw [ih w _ _ hlen hw]
      exact List.take_append_drop w (b :: bs)

theorem chunkPlan_lenSum :
    ∀ (fuel w addr : Nat) (data : List Nat), data.length ≤ fuel → 1 ≤ w →
      ((chunkPlan fuel w addr data).map (fun p => p.2.length)).sum = data.length := by
  intro fuel w addr data h1 hw
  have h := congrArg List.length (chunkPlan_flatten fuel w addr data h1 hw)
  rw [List.length_flatten, List.map_map] at h
  exact h

theorem planOk_append :
    ∀ (l1 l2 : List (Nat × List Nat)) (a : Nat), planOk a l1 = true →
      planOk (a + ((l1.map (fun p => p.2.length)).sum)) l2 = true →
      planOk a (l1 ++ l2) = true := by
  intro l1
  induction l1 with
  | nil => intro l2 a _ h2; simpa using h2
  | cons hd t ih =>
    intro l2 a h1 h2
    obtain ⟨o, c⟩ := hd
    simp only [planOk, Bool.and_eq_true] at h1
    simp only [List.cons_append, planOk, Bool.and_eq_true]
    refine ⟨⟨h1.1.1, h1.1.2⟩, ?_⟩
    apply ih _ _ h1.2
    have : a + c.length + ((t.map (fun p => p.2.length)).sum)
        = a + ((List.map (fun p => p.2.length) ((o, c) :: t)).sum) := by
      simp [Nat.add_assoc]
    rw [this]
    exact h2

theorem planOk_hexPlanAll (w : Nat) (hw : 1 ≤ w) :
    ∀ (reads : List (List Nat)) (addr : Nat),
      planOk addr (hexPlanAll w addr reads) = true := by
  intro reads
  induction reads with
  | nil => intro addr; simp [hexPlanAll, planOk]
  | cons d t ih =>
    intro addr
    simp only [hexPlanAll]
    apply planOk_append _ _ _ (planOk_chunkPlan d.length w addr d (Nat.le_refl _) hw)
    rw [chunkPlan_lenSum d.length w addr d (Nat.le_refl _) hw]
    exact ih (addr + d.length)

theorem hexPlanAll_flatten (w : Nat) (hw : 1 ≤ w) :
    ∀ (reads : List (List Nat)) (addr : Nat),
      ((hexPlanAll w addr reads).map Prod.snd).flatten = reads.flatten := by
  intro reads
  induction reads with
  | nil => intro addr; simp [hexPlanAll]
  | cons d t ih =>
    intro addr
    simp only [hexPlanAll, List.map_append, List.flatten_append, List.flatten_cons]
    rw [chunkPlan_flatten d.length w addr d (Nat.le_refl _) hw, ih (addr + d.length)]

theorem hexPlanAll_nil_read (w addr : Nat) (t : List (List Nat)) :
    hexPlanAll w addr ([] :: t) = hexPlanAll w addr t := by
  simp [hexPlanAll, chunkPlan]

/-! ### Run-loop fold lemmas (support for C7 and C8) -/

theorem log_bin_fst (b h : Bool) (w a : Nat) (data : List Nat) :
    (log_bin_and_hex b h w a data).1
      = if data = [] then [] else if b then data else [] := by
  unfold log_bin_and_hex
  split
  · rfl
  · cases h <;> cases b <;> rfl

theorem log_bin_hex_true (w a : Nat) (data : List Nat) (hd : data ≠ [])
    (hw : 1 ≤ w) (b : Bool) :
    (log_bin_and_hex b true w a data).2
      = ((chunkPlan data.length w a data).map (fun p => hexLine p.1 w p.2),
          a + data.length) := by
  unfold log_bin_and_hex
  rw [if_neg hd]
  dsimp only
  rw [hexLoop_spec data.length w a data (Nat.le_refl _) hw]
  rfl

theorem effWidth_pos (cfg : Cfg) : 1 ≤ effWidth cfg := by
  unfold effWidth
  omega

theorem stepLine_not_nil (env : Env) (cfg : Cfg) (s : LoopState) (raw : List Nat)
    (hraw : raw ≠ []) :
    stepLine env cfg s raw
      = ⟨(process_line s.json (rstripCRLF (env.decodeReplace raw))).1,
          (log_bin_and_hex cfg.binPath.isSome cfg.hexPath.isSome (effWidth cfg)
              s.hexAddr raw).2.2,
          s.binOut ++ (log_bin_and_hex cfg.binPath.isSome cfg.hexPath.isSome
              (effWidth cfg) s.hexAddr raw).1,
          s.hexLines ++ (log_bin_and_hex cfg.binPath.isSome cfg.hexPath.isSome
              (effWidth cfg) s.hexAddr raw).2.1,
          s.events ++ (process_line s.json (rstripCRLF (env.decodeReplace raw))).2⟩ := by
  unfold stepLine
  rw [if_neg hraw]

theorem foldl_stepLine_hex (env : Env) (cfg : Cfg) (hhex : cfg.hexPath.isSome = true) :
    ∀ (reads : List (List Nat)) (s : LoopState),
      ((reads.foldl (stepLine env cfg) s).hexLines
          = s.hexLines ++ (hexPlanAll (effWidth cfg) s.hexAddr reads).map
              (fun p => hexLine p.1 (effWidth cfg) p.2)) ∧
        (reads.foldl (stepLine env cfg) s).hexAddr
          = s.hexAddr + (reads.map List.length).sum := by
  intro reads
  induction reads with
  | nil => intro s; simp [hexPlanAll]
  | cons raw t ih =>
    intro s
    simp only [List.foldl_cons]
    by_cases hraw : raw = []
    · subst hraw
      have hstep : stepLine env cfg s [] = s := by
        unfold stepLine
        rw [if_pos rfl]
      rw [hstep, hexPlanAll_nil_read]
      have := ih s
      simpa using this
    · rw [stepLine_not_nil env cfg s raw hraw]
      rw [hhex] at *
      have hlog := log_bin_hex_true (effWidth cfg) s.hexAddr raw hraw (effWidth_pos cfg)
        cfg.binPath.isSome
      obtain ⟨ih1, ih2⟩ := ih ⟨(process_line s.json (rstripCRLF (env.decodeReplace raw))).1,
          (log_bin_and_hex cfg.binPath.isSome true (effWidth cfg) s.hexAddr raw).2.2,
          s.binOut ++ (log_bin_and_hex cfg.binPath.isSome true (effWidth cfg) s.hexAddr raw).1,
          s.hexLines ++ (log_bin_and_hex cfg.binPath.isSome true (effWidth cfg) s.hexAddr raw).2.1,
          s.events ++ (process_line s.json (rstripCRLF (env.decodeReplace raw))).2⟩
      constructor
      · rw [ih1]
        dsimp only
        rw [hlog]
        dsimp only
        simp only [hexPlanAll, List.map_append, List.append_assoc]
      · rw [ih2]
        dsimp only
        rw [hlog]
        dsimp only
        simp [Nat.add_assoc]

theorem foldl_stepLine_bin (env : Env) (cfg : Cfg) (hbin : cfg.binPath.isSome = true) :
    ∀ (reads : List (List Nat)) (s : LoopState),
      (reads.foldl (stepLine env cfg) s).binOut = s.binOut ++ reads.flatten := by
  intro reads
  induction reads with
  | nil => intro s; simp
  | cons raw t ih =>
    intro s
    simp only [List.foldl_cons, List.flatten_cons]
    by_cases hraw : raw = []
    · subst hraw
      have hstep : stepLine env cfg s [] = s := by
        unfold stepLine
        rw [if_pos rfl]
      rw [hstep]
      simpa using ih s
    · rw [stepLine_not_nil env cfg s raw hraw, ih]
      dsimp only
      rw [log_bin_fst, if_neg hraw, hbin]
      simp [List.append_assoc]

/-! ### Hex address width (support for C7's 8-digit offsets) -/

theorem toHexAux_len :
    ∀ (fuel n k : Nat), n < 16 ^ k → (toHexAux fuel n).length ≤ k := by
  intro fuel
  induction fuel with
  | zero => intro n k _; simp [toHexAux]
  | succ f ih =>
    intro n k h
    unfold toHexAux
    split
    · simp
    · rename_i hn
      cases k with
      | zero =>
        exfalso
        simp at h
        omega
      | succ k2 =>
        have hdiv : n / 16 < 16 ^ k2 := by
          rw [Nat.div_lt_iff_lt_mul (by omega : 0 < 16)]
          calc n < 16 ^ (k2 + 1) := h
            _ = 16 ^ k2 * 16 := by rw [Nat.pow_succ]
        have := ih (n / 16) k2 hdiv
        simp only [List.length_append, List.length_cons, List.length_nil]
        omega

theorem hex08_len (a : Nat) (ha : a < 4294967296) : (hex08 a).length = 8 := by
  unfold hex08
  have hle : (if a = 0 then ['0'] else toHexAux a a).length ≤ 8 := by
    split
    · simp
    · exact toHexAux_len a a 8 (by simpa using ha)
  show (List.replicate (8 - (if a = 0 then ['0'] else toHexAux a a).length) '0'
      ++ (if a = 0 then ['0'] else toHexAux a a)).length = 8
  rw [List.length_append, List.length_replicate]
  omega

/-! ### Serial-error classification (support for C9) -/

theorem listStartsWith_self_append :
    ∀ (p cs : List Char), listStartsWith p (p ++ cs) = true := by
  intro p
  induction p with
  | nil => intro cs; rfl
  | cons a t ih => intro cs; simp [listStartsWith, ih]

theorem listStartsWith_err_info (cs : List Char) :
    listStartsWith serialErrMark ('[' :: 'i' :: cs) = false := rfl

theorem isSerialErrorEvent_openfail (env : Env) :
    isSerialErrorEvent (Event.rawLine (serialErrorOpenLine env)) = true := by
  show listStartsWith serialErrMark
    (("[Serial error] open failed: " ++ env.errMsg).data) = true
  rw [String.data_append]
  have hsplit : ("[Serial error] open failed: " : String).data
      = serialErrMark ++ " open failed: ".data := rfl
  rw [hsplit, List.append_assoc]
  exact listStartsWith_self_append serialErrMark _

theorem isSerialErrorEvent_info (pre : String) (x : String)
    (hpre : ∃ cs : List Char, pre.data = '[' :: 'i' :: cs) :
    isSerialErrorEvent (Event.rawLine (pre ++ x)) = false := by
  obtain ⟨cs, hcs⟩ := hpre
  show listStartsWith serialErrMark ((pre ++ x).data) = false
  rw [String.data_append, hcs, List.cons_append, List.cons_append]
  exact listStartsWith_err_info _

theorem filter_err_openFilesEvents (env : Env) (cfg : Cfg) :
    (openFilesEvents env cfg).filter isSerialErrorEvent = [] := by
  unfold openFilesEvents
  rw [List.filter_append, List.filter_append]
  have hlog : (match cfg.logPath with
      | some p => [Event.rawLine ("[info] Logging to " ++ env.abspath p)]
      | none => ([] : List Event)).filter isSerialErrorEvent = [] := by
    cases cfg.logPath with
    | none => rfl
    | some p =>
      rw [List.filter_cons_of_neg]
      · rfl
      · simp [isSerialErrorEvent_info "[info] Logging to " (env.abspath p) ⟨_, rfl⟩]
  have hbin : (match cfg.binPath with
      | some p => [Event.rawLine ("[info] Binary capture -> " ++ env.abspath p)]
      | none => ([] : List Event)).filter isSerialErrorEvent = [] := by
    cases cfg.binPath with
    | none => rfl
    | some p =>
      rw [List.filter_cons_of_neg]
      · rfl
      · simp [isSerialErrorEvent_info "[info] Binary capture -> " (env.abspath p) ⟨_, rfl⟩]
  have hhex : (match cfg.hexPath with
      | some p => [Event.rawLine ("[info] Hex dump -> " ++ env.abspath p)]
      | none => ([] : List Event)).filter isSerialErrorEvent = [] := by
    cases cfg.hexPath with
    | none => rfl
    | some p =>
      rw [List.filter_cons_of_neg]
      · rfl
      · simp [isSerialErrorEvent_info "[info] Hex dump -> " (env.abspath p) ⟨_, rfl⟩]
  rw [hlog, hbin, hhex]
  rfl

end SerialLoc

namespace SerialLoc

/-! ### Claim theorems: the JSON split across two feeds (C2) -/

/-- C2: a JSON object split across two feeds — `\x7b"lat": 10.0, "lon":`
then ` 20.0\x7d` — emits no location and no telemetry event after the first
feed, and after the second feed exactly one telemetry event with packet
`latitude = 10.0, longitude = 20.0` and exactly one matching location
event. -/
theorem claim_c2_split_json :
    ((process_line initState "\x7b\"lat\": 10.0, \"lon\":").2.filter
        (fun e => isLocation e || isTelemetry e)) = [] ∧
    ((process_line (process_line initState "\x7b\"lat\": 10.0, \"lon\":").1 " 20.0\x7d").2.filter
        isTelemetry)
      = [Event.telemetry [("latitude", JVal.num 10), ("longitude", JVal.num 20)]] ∧
    ((process_line (process_line initState "\x7b\"lat\": 10.0, \"lon\":").1 " 20.0\x7d").2.filter
        isLocation)
      = [Event.location 10 20] :=
  ⟨rfl, rfl, rfl⟩

/-! ### C1: pattern lines emit one location and one two-field telemetry -/

/-- C1: for every line on which the code's coordinate-pattern selection
(`_re_loc`-or-`_re_emoji_loc`, else `_re_latlon_pair`, covering all three
variants with the code's precedence) matches with groups that convert to
the floats `la` and `lo`, processing the line emits exactly the raw-line
republication, exactly one location event `(la, lo)`, and exactly one
telemetry event whose packet holds exactly `latitude = la` and
`longitude = lo` — identically for whichever pattern matched, with the
assembly state untouched. -/
theorem claim_c1_pattern_events (st : JsonState) (line : String)
    (g1 g2 : List Char) (la lo : ℚ)
    (h : searchGroups line.data = some (g1, g2))
    (h1 : pyFloatChars g1 = some la) (h2 : pyFloatChars g2 = some lo) :
    process_line st line
      = (st, [Event.rawLine line, Event.location la lo,
          Event.telemetry [("latitude", JVal.num la), ("longitude", JVal.num lo)]]) := by
  have hne : line.data ≠ [] := by
    intro hnil
    rw [hnil] at h
    have hnone : searchGroups [] = none := rfl
    rw [hnone] at h
    exact Option.noConfusion h
  have hp := parse_of_search line g1 g2 la lo h h1 h2
  unfold process_line
  rw [if_neg hne, hp]
  rfl

/-- C1 witness: the generic pattern at `Location: 1.5, 2.5` (captured
groups `1.5` and `2.5`, parsed as `3/2` and `5/2`). -/
theorem claim_c1_witness :
    process_line initState "Location: 1.5, 2.5"
      = (initState,
          [Event.rawLine "Location: 1.5, 2.5",
            Event.location (mkRat 3 2) (mkRat 5 2),
            Event.telemetry [("latitude", JVal.num (mkRat 3 2)),
              ("longitude", JVal.num (mkRat 5 2))]]) :=
  claim_c1_pattern_events initState "Location: 1.5, 2.5"
    ("1.5".data) ("2.5".data) (mkRat 3 2) (mkRat 5 2) rfl rfl rfl

/-! ### C10: captured numeric substrings always convert -/

/-- C10: whenever the pattern/group selection of
`_parse_line_for_location` matches, both captured substrings convert with
`float()` (the `except` branches are unreachable), so the method returns
`True` with a non-empty emission — a successful pattern match always
results in emission and never falls through to the JSON assembler. -/
theorem claim_c10_captures_convert (line : String) (g1 g2 : List Char)
    (h : searchGroups line.data = some (g1, g2)) :
    (pyFloatChars g1).isSome = true ∧ (pyFloatChars g2).isSome = true ∧
    (parse_line_for_location line).1 = true ∧
    (parse_line_for_location line).2 ≠ [] := by
  obtain ⟨hp1, hp2⟩ := searchGroups_provenance h
  obtain ⟨a1, r1, hm1⟩ := hp1
  obtain ⟨a2, r2, hm2⟩ := hp2
  have hf1 := matchNum_pyFloat hm1
  have hf2 := matchNum_pyFloat hm2
  obtain ⟨la, hla⟩ := Option.isSome_iff_exists.mp hf1
  obtain ⟨lo, hlo⟩ := Option.isSome_iff_exists.mp hf2
  have hp := parse_of_search line g1 g2 la lo h hla hlo
  refine ⟨hf1, hf2, ?_, ?_⟩
  · rw [hp]
  · rw [hp]
    simp [emit_latlon]

/-- C10 witness: the labeled-pair pattern at `Lat: 7 Lon: 9`. -/
theorem claim_c10_witness :
    (pyFloatChars "7".data).isSome = true ∧ (pyFloatChars "9".data).isSome = true ∧
    (parse_line_for_location "Lat: 7 Lon: 9").1 = true ∧
    (parse_line_for_location "Lat: 7 Lon: 9").2 ≠ [] :=
  claim_c10_captures_convert "Lat: 7 Lon: 9" ("7".data) ("9".data) rfl

/-! ### C3: the JSON assembly invariant -/

/-- C3 counterexample: feeding the single non-JSON line `x` from the
initial state accumulates `x` in the buffer, then — because the depth is
(still) zero at the end of the feed — resets the buffer to empty while
emitting nothing.  This refutes both "depth returns to zero exactly when a
complete top-level JSON object has been accumulated" and "reset to empty
only when a complete object is emitted": the buffer is discarded at every
depth-zero feed boundary, object or not. -/
theorem claim_c3_counterexample :
    (("x".data.foldl scanChar initState).buf = ['x']) ∧
    (feed_json_line initState "x").1.buf = [] ∧
    (feed_json_line initState "x").2 = [] :=
  ⟨rfl, rfl, rfl⟩

/-- C3 (amended): across a feed that takes the streaming path, the buffer
grows by exactly the fed characters; if the resulting depth is zero and the
buffer non-empty, the buffer is cleared and both string-state flags are
reset together at that feed boundary (whether or not the payload was a
complete object); otherwise the state after the feed is exactly the scanned
state, with no events; and an emission can only happen at such a
depth-zero boundary with a payload that parses as JSON. -/
theorem claim_c3_feed_invariant (st : JsonState) (line : String)
    (h1 : line.data ≠ []) (h2 : fastCond line.data = false) :
    ((line.data.foldl scanChar st).buf = st.buf ++ line.data) ∧
    ((line.data.foldl scanChar st).depth = 0 → (line.data.foldl scanChar st).buf ≠ [] →
      (feed_json_line st line).1 = ⟨[], 0, false, false⟩) ∧
    (¬((line.data.foldl scanChar st).depth = 0 ∧ (line.data.foldl scanChar st).buf ≠ []) →
      feed_json_line st line = (line.data.foldl scanChar st, [])) ∧
    ((feed_json_line st line).2 ≠ [] →
      (line.data.foldl scanChar st).depth = 0 ∧
      ∃ v, jsonLoads (pyStrip (line.data.foldl scanChar st).buf) = some v) := by
  have hfeed :
      feed_json_line st line =
        (let st1 := line.data.foldl scanChar st
        if st1.depth = 0 ∧ st1.buf ≠ [] then
          let payload := pyStrip st1.buf
          let st2 : JsonState := ⟨[], st1.depth, false, false⟩
          if payload.head? = some braceO ∧ payload.getLast? = some braceC then
            match jsonLoads payload with
            | none => (st2, [])
            | some v => (st2, emit_json_val v)
          else (st2, [])
        else (st1, [])) := by
    unfold feed_json_line
    rw [if_neg (by exact h1), if_neg (by simp [h2])]
  refine ⟨foldl_scanChar_buf _ _, ?_, ?_, ?_⟩
  · intro hd hb
    rw [hfeed]
    dsimp only
    rw [if_pos ⟨hd, hb⟩]
    split
    · split <;> simp [hd]
    · simp [hd]
  · intro hnot
    rw [hfeed]
    dsimp only
    rw [if_neg hnot]
  · intro hev
    rw [hfeed] at hev
    dsimp only at hev
    by_cases hc : (line.data.foldl scanChar st).depth = 0 ∧ (line.data.foldl scanChar st).buf ≠ []
    · refine ⟨hc.1, ?_⟩
      rw [if_pos hc] at hev
      split at hev
      · split at hev
        · simp at hev
        · exact ⟨_, by assumption⟩
      · simp at hev
    · rw [if_neg hc] at hev
      simp at hev

/-- C3 witness: the amended invariant at the concrete feed of
`\x7b"a": 1,` from the initial state (depth stays 1, so the buffer
persists, holding exactly the fed characters, and nothing is emitted). -/
theorem claim_c3_witness :
    (("\x7b\"a\": 1,".data.foldl scanChar initState).buf
        = initState.buf ++ "\x7b\"a\": 1,".data) ∧
    (("\x7b\"a\": 1,".data.foldl scanChar initState).depth = 0 →
      ("\x7b\"a\": 1,".data.foldl scanChar initState).buf ≠ [] →
      (feed_json_line initState "\x7b\"a\": 1,").1 = ⟨[], 0, false, false⟩) ∧
    (¬(("\x7b\"a\": 1,".data.foldl scanChar initState).depth = 0 ∧
        ("\x7b\"a\": 1,".data.foldl scanChar initState).buf ≠ []) →
      feed_json_line initState "\x7b\"a\": 1,"
        = ("\x7b\"a\": 1,".data.foldl scanChar initState, [])) ∧
    ((feed_json_line initState "\x7b\"a\": 1,").2 ≠ [] →
      ("\x7b\"a\": 1,".data.foldl scanChar initState).depth = 0 ∧
      ∃ v, jsonLoads (pyStrip ("\x7b\"a\": 1,".data.foldl scanChar initState).buf) = some v) :=
  claim_c3_feed_invariant initState "\x7b\"a\": 1," (by decide) rfl

/-! ### C4: single-line JSON, recognized fields, lat/lon normalization -/

/-- C4: a complete single-line JSON object matching no coordinate pattern,
`\x7b"altitude": 12.5, "mode": 2\x7d`, produces exactly one telemetry event
whose packet holds exactly `altitude = 12.5` and `mode = 2` and no location
event (first conjunct, an exact evaluation); every key of any emitted
packet belongs to the fixed recognized set (second conjunct); and the
source spellings `lat` / `lon` are normalized onto the canonical
`latitude` / `longitude` packet fields (last two conjuncts). -/
theorem claim_c4_json_packet (obj : List (String × JVal)) (k : String)
    (v vlat vlon : JVal)
    (hk : lookupKV (emit_json_pkt obj) k = some v)
    (hlat : lookupKV obj "lat" = some vlat)
    (hlon : lookupKV obj "lon" = some vlon) :
    (process_line initState "\x7b\"altitude\": 12.5, \"mode\": 2\x7d"
      = (initState,
          [Event.rawLine "\x7b\"altitude\": 12.5, \"mode\": 2\x7d",
            Event.telemetry [("altitude", JVal.num (mkRat 25 2)), ("mode", JVal.num 2)]])) ∧
    k ∈ recognizedKeys ∧
    lookupKV (emit_json_pkt obj) "latitude" = some vlat ∧
    lookupKV (emit_json_pkt obj) "longitude" = some vlon :=
  ⟨rfl, emit_json_pkt_keys obj k v hk, emit_json_pkt_lat obj vlat hlat,
    emit_json_pkt_lon obj vlon hlon⟩

/-- C4 witness: the packet lemmas instantiated at the concrete object
`\x7b"lat": 1, "lon": 2, "mode": 3\x7d` (as an already-parsed field list). -/
theorem claim_c4_witness :
    (process_line initState "\x7b\"altitude\": 12.5, \"mode\": 2\x7d"
      = (initState,
          [Event.rawLine "\x7b\"altitude\": 12.5, \"mode\": 2\x7d",
            Event.telemetry [("altitude", JVal.num (mkRat 25 2)), ("mode", JVal.num 2)]])) ∧
    ("mode" : String) ∈ recognizedKeys ∧
    lookupKV (emit_json_pkt [("lat", JVal.num 1), ("lon", JVal.num 2), ("mode", JVal.num 3)])
        "latitude" = some (JVal.num 1) ∧
    lookupKV (emit_json_pkt [("lat", JVal.num 1), ("lon", JVal.num 2), ("mode", JVal.num 3)])
        "longitude" = some (JVal.num 2) :=
  claim_c4_json_packet
    [("lat", JVal.num 1), ("lon", JVal.num 2), ("mode", JVal.num 3)]
    "mode" (JVal.num 3) (JVal.num 1) (JVal.num 2) rfl rfl rfl

/-! ### C5: malformed JSON between matching braces -/

/-- C5: a line (fast path) or an assembled multi-line payload (streaming
path) that lies between matching outer braces but fails to parse emits no
telemetry and no location event; the buffered payload of the streaming
boundary is discarded (buffer cleared, flags reset); and the raw line is
still republished unchanged as the only event of the line. -/
theorem claim_c5_malformed_json (st st2 : JsonState) (line line2 : String)
    (h1 : (parse_line_for_location line).1 = false)
    (h2 : line.data ≠ [])
    (h3 : fastCond line.data = true)
    (h4 : jsonLoads line.data = none)
    (h5 : (parse_line_for_location line2).1 = false)
    (h6 : line2.data ≠ [])
    (h7 : fastCond line2.data = false)
    (h8 : (line2.data.foldl scanChar st2).depth = 0)
    (h9 : (line2.data.foldl scanChar st2).buf ≠ [])
    (h10 : jsonLoads (pyStrip (line2.data.foldl scanChar st2).buf) = none) :
    process_line st line = (st, [Event.rawLine line]) ∧
    process_line st2 line2 = (⟨[], 0, false, false⟩, [Event.rawLine line2]) := by
  constructor
  · unfold process_line
    rw [if_neg (by exact h2)]
    rcases hp : parse_line_for_location line with ⟨b, evs⟩
    rw [hp] at h1
    subst h1
    have hfeed : feed_json_line st line = (st, []) := by
      unfold feed_json_line
      rw [if_neg (by exact h2), if_pos h3, h4]
    rw [hfeed]
  · unfold process_line
    rw [if_neg (by exact h6)]
    rcases hp : parse_line_for_location line2 with ⟨b, evs⟩
    rw [hp] at h5
    subst h5
    have hfeed : feed_json_line st2 line2 = (⟨[], 0, false, false⟩, []) := by
      unfold feed_json_line
      rw [if_neg (by exact h6), if_neg (by simp [h7])]
      dsimp only
      rw [if_pos ⟨h8, h9⟩]
      split
      · rw [h10]
        simp [h8]
      · simp [h8]
    rw [hfeed]

/-- C5 witness: the fast path at the trailing-comma line `\x7b"a": 1,\x7d`,
and the streaming path at the feed of `\x7d` from the state holding the
buffered fragment `\x7b"a": 1,` (assembling the same malformed payload). -/
theorem claim_c5_witness :
    process_line initState "\x7b\"a\": 1,\x7d"
      = (initState, [Event.rawLine "\x7b\"a\": 1,\x7d"]) ∧
    process_line ⟨"\x7b\"a\": 1,".data, 1, false, false⟩ "\x7d"
      = (⟨[], 0, false, false⟩, [Event.rawLine "\x7d"]) :=
  claim_c5_malformed_json initState ⟨"\x7b\"a\": 1,".data, 1, false, false⟩
    "\x7b\"a\": 1,\x7d" "\x7d" rfl (by decide) rfl rfl rfl (by decide) rfl rfl
    (by decide) rfl

/-! ### C6: raw-line republication -/

/-- C6 counterexample: the raw read `b"\r\n"` decodes to `\r\n`, which the
run loop strips to the empty line, and processing the empty line emits no
events at all — in particular no `raw_line` event — contradicting "every
decoded line, including empty ones, yields exactly one raw_line event". -/
theorem claim_c6_counterexample :
    rstripCRLF (asciiDecode [13, 10]) = "" ∧
    ([13, 10] ≠ ([] : List Nat)) ∧
    (process_line initState "").2 = [] :=
  ⟨rfl, by decide, rfl⟩

/-- C6 (amended): every decoded line that is non-empty after stripping its
trailing CR/LF yields exactly one `raw_line` event carrying the line's text
unchanged (and it is emitted first), independent of whether pattern or JSON
extraction succeeded; lines that strip to empty yield no events. -/
theorem claim_c6_raw_line (st : JsonState) (line : String) (h : line.data ≠ []) :
    (process_line st line).2.head? = some (Event.rawLine line) ∧
    (process_line st line).2.filter isRawLine = [Event.rawLine line] := by
  unfold process_line
  rw [if_neg (by exact h)]
  rcases hp : parse_line_for_location line with ⟨b, evs⟩
  cases b
  · dsimp only
    refine ⟨rfl, ?_⟩
    rw [List.filter_cons_of_pos (by simp [isRawLine])]
    have := feed_filter_raw st line
    rw [this]
  · dsimp only
    refine ⟨rfl, ?_⟩
    rw [List.filter_cons_of_pos (by simp [isRawLine])]
    have := parse_filter_raw line
    rw [hp] at this
    simp only at this
    rw [this]

/-- C6 witness: the amended statement at the pattern line
`Location: 4, 5` fed from the initial state. -/
theorem claim_c6_witness :
    (process_line initState "Location: 4, 5").2.head?
        = some (Event.rawLine "Location: 4, 5") ∧
    (process_line initState "Location: 4, 5").2.filter isRawLine
        = [Event.rawLine "Location: 4, 5"] :=
  claim_c6_raw_line initState "Location: 4, 5" (by decide)

/-! ### C7: hex-dump address continuity and line format -/

/-- C7: with the hex-dump sink enabled, after a run over any sequence of
raw reads the running address equals the total byte count; the emitted dump
lines are exactly `hexLine` (the `offset: hex-bytes |gutter|` rendering of
the source) applied to the plan whose offsets are the cumulative byte
counts; that plan is contiguous (each line's offset equals the bytes dumped
before it — no gaps, no overlap) and partitions the input bytes; and for
any address below `2^32` the rendered offset field is exactly 8 hex
digits. -/
theorem claim_c7_hexdump (env : Env) (cfg : Cfg) (reads : List (List Nat))
    (hhex : cfg.hexPath.isSome = true) (a : Nat) (ha : a < 4294967296) :
    (runLines env cfg true reads).hexAddr = (reads.map List.length).sum ∧
    (runLines env cfg true reads).hexLines
      = (hexPlanAll (effWidth cfg) 0 reads).map
          (fun p => hexLine p.1 (effWidth cfg) p.2) ∧
    planOk 0 (hexPlanAll (effWidth cfg) 0 reads) = true ∧
    ((hexPlanAll (effWidth cfg) 0 reads).map Prod.snd).flatten = reads.flatten ∧
    (hex08 a).length = 8 := by
  obtain ⟨hl, hadd⟩ := foldl_stepLine_hex env cfg hhex reads initLoop
  refine ⟨?_, ?_, planOk_hexPlanAll _ (effWidth_pos cfg) reads 0,
    hexPlanAll_flatten _ (effWidth_pos cfg) reads 0, hex08_len a ha⟩
  · show (reads.foldl (stepLine env cfg) initLoop).hexAddr = _
    rw [hadd]
    simp [initLoop]
  · show (reads.foldl (stepLine env cfg) initLoop).hexLines = _
    rw [hl]
    simp [initLoop]

/-- C7 witness: a run over the single read `HI` (bytes 72, 73) with the
hex sink configured at width 16, and the offset-width fact at address 0. -/
theorem claim_c7_witness :
    (runLines env0 ⟨none, none, some "h", 16⟩ true [[72, 73]]).hexAddr
        = ([[72, 73]].map List.length).sum ∧
    (runLines env0 ⟨none, none, some "h", 16⟩ true [[72, 73]]).hexLines
        = (hexPlanAll (effWidth ⟨none, none, some "h", 16⟩) 0 [[72, 73]]).map
            (fun p => hexLine p.1 (effWidth ⟨none, none, some "h", 16⟩) p.2) ∧
    planOk 0 (hexPlanAll (effWidth ⟨none, none, some "h", 16⟩) 0 [[72, 73]]) = true ∧
    ((hexPlanAll (effWidth ⟨none, none, some "h", 16⟩) 0 [[72, 73]]).map
        Prod.snd).flatten = ([[72, 73]] : List (List Nat)).flatten ∧
    (hex08 0).length = 8 :=
  claim_c7_hexdump env0 ⟨none, none, some "h", 16⟩ [[72, 73]] rfl 0 (by decide)

/-! ### C8: binary capture round trip -/

/-- C8: with binary capture enabled, the bytes written to the binary sink
across a run are byte-for-byte the concatenation of all raw reads, in
order. -/
theorem claim_c8_bin_roundtrip (env : Env) (cfg : Cfg) (reads : List (List Nat))
    (hbin : cfg.binPath.isSome = true) :
    (runLines env cfg true reads).binOut = reads.flatten := by
  have h := foldl_stepLine_bin env cfg hbin reads initLoop
  show (reads.foldl (stepLine env cfg) initLoop).binOut = _
  rw [h]
  simp [initLoop]

/-- C8 witness: a run over the reads `[1, 2]`, a timeout, `[3]` with the
binary sink configured. -/
theorem claim_c8_witness :
    (runLines env0 ⟨none, some "b", none, 16⟩ true [[1, 2], [], [3]]).binOut
      = ([[1, 2], [], [3]] : List (List Nat)).flatten :=
  claim_c8_bin_roundtrip env0 ⟨none, some "b", none, 16⟩ [[1, 2], [], [3]] rfl

/-! ### C9: device-open failure -/

/-- C9: if opening the device fails, the run performs no reads, closes the
sinks, and its event trace is exactly the sink-open info lines followed by
one `[Serial error]`-prefixed diagnostic: that diagnostic is the only
serial-error event and the last event of the run. -/
theorem claim_c9_open_failure (env : Env) (cfg : Cfg) (reads : List (List Nat)) :
    (runLines env cfg false reads).readsDone = 0 ∧
    (runLines env cfg false reads).sinksClosed = true ∧
    (runLines env cfg false reads).events
      = openFilesEvents env cfg ++ [Event.rawLine (serialErrorOpenLine env)] ∧
    (runLines env cfg false reads).events.filter isSerialErrorEvent
      = [Event.rawLine (serialErrorOpenLine env)] ∧
    (runLines env cfg false reads).events.getLast?
      = some (Event.rawLine (serialErrorOpenLine env)) := by
  refine ⟨rfl, rfl, rfl, ?_, ?_⟩
  · show (openFilesEvents env cfg
        ++ [Event.rawLine (serialErrorOpenLine env)]).filter isSerialErrorEvent = _
    rw [List.filter_append, filter_err_openFilesEvents,
      List.filter_cons_of_pos (by simp [isSerialErrorEvent_openfail env])]
    rfl
  · show (openFilesEvents env cfg
        ++ [Event.rawLine (serialErrorOpenLine env)]).getLast? = _
    exact List.getLast?_concat _

end SerialLoc
